import Mathlib

/-!
Verification development for the LUKE dual-stream transformer encoder
(`luke/model.py`).  The tensor computations are shallowly embedded over `ℚ`:
a hidden vector is a `List ℚ`, a (sequence × hidden) activation is a
`List (List ℚ)`, and the batch dimension is a `List` of independent examples
(every operation in the source is batch-parallel).  The numeric backend's
transcendental primitives (`torch.exp`/`log` inside softmax and cross
entropy, `torch.erf`, `math.sqrt`, `torch.tanh`) are taken as parameters in
a `Backend` record; IEEE-754 rounding is not modelled.  Dropout layers are
modelled in evaluation mode (identity), which is the only mode in which the
forward computations are deterministic functions.

A second, reference-level model (`Store` and the `mk*` constructors)
embeds the Python object graph of parameter storages in order to state the
aliasing invariants (weight tying, per-layer parameter independence):
constructing a module allocates one fresh reference per `nn.Parameter`, and
the assignment `self.decoder.weight = embedding_weights` rebinds a field to
an existing reference.  `init_weights` and checkpoint loading mutate
parameter *data* in place (`normal_`, `zero_`, `fill_`, `copy_`) and never
rebind parameter objects, so they are instances of the arbitrary store
transformers quantified in the aliasing theorems.
-/

set_option linter.unusedVariables false

namespace Luke

/-- Abstraction of the numeric backend's transcendental primitives.  The
repository calls these as black boxes of the `torch`/`math` libraries. -/
structure Backend where
  exp : ℚ → ℚ
  log : ℚ → ℚ
  erf : ℚ → ℚ
  sqrt : ℚ → ℚ
  tanh : ℚ → ℚ

/-- A hidden-dimension vector. -/
abbrev Vec := List ℚ

/-- A (sequence-length × hidden) activation matrix, or a weight matrix. -/
abbrev Mat := List Vec

def dot (x y : Vec) : ℚ := (List.zipWith (fun a b => a * b) x y).sum

def vadd (x y : Vec) : Vec := List.zipWith (fun a b => a + b) x y

def zeros (n : ℕ) : Vec := List.replicate n 0

/-- Elementwise sum of a list of `n`-vectors (`torch.sum` over one axis). -/
def vsum (n : ℕ) (l : List Vec) : Vec := l.foldl vadd (zeros n)

/-- `model.py` line 14: `gelu(x) = x * 0.5 * (1.0 + torch.erf(x / math.sqrt(2.0)))`. -/
def gelu (B : Backend) (x : ℚ) : ℚ := x * 0.5 * (1 + B.erf (x / B.sqrt 2))

/-- `nn.Embedding` lookup: row `i` of the weight matrix. -/
def embLookup (w : Mat) (i : ℕ) : Vec := w.getD i []

/-- `nn.Linear`: `y = W x (+ b)`; `bias = none` models `bias=False`. -/
structure Linear where
  weight : Mat
  bias : Option Vec

def Linear.forward (l : Linear) (x : Vec) : Vec :=
  let y := l.weight.map (fun r => dot r x)
  match l.bias with
  | none => y
  | some b => vadd y b

/-- `nn.Softmax(dim=-1)` over one score row. -/
def softmax (B : Backend) (xs : Vec) : Vec :=
  let es := xs.map B.exp
  es.map (fun e => e / es.sum)

def listMean (l : List ℚ) : ℚ := l.sum / l.length

/-- Biased variance of a list, `((x - x.mean) ** 2).mean()`. -/
def listVariance (l : List ℚ) : ℚ :=
  listMean (l.map (fun a => (a - listMean l) ^ 2))

/-- `LayerNorm` (`model.py` lines 43-54): learned scale/shift plus the
normalization epsilon (always constructed with `eps=1e-12`). -/
structure LayerNorm where
  weight : Vec
  bias : Vec
  varianceEpsilon : ℚ

/-- Lines 51-53 of `LayerNorm.forward`: the pre-affine normalized value
`(x - u) / torch.sqrt(s + eps)` with `u` the mean and `s` the biased
variance over the last dimension. -/
def LayerNorm.normalize (B : Backend) (ln : LayerNorm) (x : Vec) : Vec :=
  let u := listMean x
  let s := listMean (x.map (fun a => (a - u) ^ 2))
  x.map (fun a => (a - u) / B.sqrt (s + ln.varianceEpsilon))

/-- Line 54: `self.weight * x + self.bias` applied to the normalized value. -/
def LayerNorm.forward (B : Backend) (ln : LayerNorm) (x : Vec) : Vec :=
  vadd (List.zipWith (fun w n => w * n) ln.weight (ln.normalize B x)) ln.bias

/-- `WordEmbeddings` (`model.py` lines 57-86), dropout in eval mode. -/
structure WordEmbeddings where
  wordEmbeddings : Mat
  positionEmbeddings : Mat
  tokenTypeEmbeddings : Mat
  layerNorm : LayerNorm

/-- `WordEmbeddings.forward`: position ids are `0..seq_len-1`; the three
embeddings are summed then layer-normalized (dropout = identity). -/
def WordEmbeddings.forward (B : Backend) (we : WordEmbeddings)
    (inputIds tokenTypeIds : List ℕ) : Mat :=
  let positionIds := List.range inputIds.length
  (List.zipWith3
    (fun i p t =>
      vadd (vadd (embLookup we.wordEmbeddings i) (embLookup we.positionEmbeddings p))
        (embLookup we.tokenTypeEmbeddings t))
    inputIds positionIds tokenTypeIds).map (we.layerNorm.forward B)

/-- `EntityEmbeddings` (`model.py` lines 89-126); `entityDense` is present
exactly when `entity_emb_size != hidden_size`. -/
structure EntityEmbeddings where
  entityEmbeddings : Mat
  positionEmbeddings : Mat
  tokenTypeEmbeddings : Mat
  entityDense : Option Linear
  layerNorm : LayerNorm

/-- Lines 113-118 of `EntityEmbeddings.forward` for one entity's position-id
slots: clamp ids to `min=0` for the lookup, zero out the slots whose
original id is the sentinel `-1` via the validity mask, sum over the slot
axis, and divide by the count of valid slots plus `1e-12`. -/
def positionEmbAverage (posTable : Mat) (hidden : ℕ) (slots : List ℤ) : Vec :=
  let embs := slots.map (fun p => embLookup posTable (max p 0).toNat)
  let mask : List ℚ := slots.map (fun p => if p = -1 then 0 else 1)
  let masked := List.zipWith (fun m e => e.map (fun a => m * a)) mask embs
  let summed := vsum hidden masked
  summed.map (fun a => a / (mask.sum + 1e-12))

/-- `EntityEmbeddings.forward` (dropout = identity). -/
def EntityEmbeddings.forward (B : Backend) (hidden : ℕ) (ee : EntityEmbeddings)
    (entityIds : List ℕ) (positionIds : List (List ℤ)) (tokenTypeIds : List ℕ) : Mat :=
  let ent := entityIds.map (fun i => embLookup ee.entityEmbeddings i)
  let ent := match ee.entityDense with
    | none => ent
    | some d => ent.map d.forward
  List.zipWith3
    (fun e ps t =>
      ee.layerNorm.forward B
        (vadd (vadd e (positionEmbAverage ee.positionEmbeddings hidden ps))
          (embLookup ee.tokenTypeEmbeddings t)))
    ent positionIds tokenTypeIds

/-- `SelfAttention` (`model.py` lines 129-180). -/
structure SelfAttention where
  numAttentionHeads : ℕ
  attentionHeadSize : ℕ
  query : Linear
  key : Linear
  value : Linear

/-- The slice of a hidden vector belonging to head `h` after
`transpose_for_scores` (`view` into `(heads, head_size)` then `permute`). -/
def headSlice (hsz h : ℕ) (x : Vec) : Vec := (x.drop (h * hsz)).take hsz

/-- One head's context row for query vector `qi`:
scaled dot-product scores over keys, plus the additive attention-mask bias,
softmax over the key axis (attention-probability dropout = identity), then
the probability-weighted sum of value rows. -/
def attnContextHead (B : Backend) (hsz : ℕ) (ks vs : Mat) (mask : Vec) (qi : Vec) : Vec :=
  let scores := List.zipWith (fun kj mj => dot qi kj / B.sqrt (hsz : ℚ) + mj) ks mask
  let probs := softmax B scores
  vsum hsz (List.zipWith (fun p vj => vj.map (fun a => p * a)) probs vs)

/-- Lines 149-173: joint attention over one already-concatenated sequence:
query/key/value projections, per-head scaled dot-product attention, and the
permute/view that concatenates the heads' context slices back into hidden
vectors. -/
def SelfAttention.joint (B : Backend) (sa : SelfAttention)
    (hiddenStates : Mat) (mask : Vec) : Mat :=
  let q := hiddenStates.map sa.query.forward
  let k := hiddenStates.map sa.key.forward
  let v := hiddenStates.map sa.value.forward
  q.map (fun qi =>
    ((List.range sa.numAttentionHeads).map (fun h =>
      attnContextHead B sa.attentionHeadSize
        (k.map (headSlice sa.attentionHeadSize h))
        (v.map (headSlice sa.attentionHeadSize h)) mask
        (headSlice sa.attentionHeadSize h qi))).flatten)

/-- `SelfAttention.forward` (lines 147-180): concatenate the word and entity
streams (line 148), attend jointly, then split the context back at
`word_seq_size = word_hidden_states.size(1)` (lines 175-178). -/
def SelfAttention.forward (B : Backend) (sa : SelfAttention)
    (wordHiddenStates entityHiddenStates : Mat) (mask : Vec) : Mat × Mat :=
  let ctx := sa.joint B (wordHiddenStates ++ entityHiddenStates) mask
  (ctx.take wordHiddenStates.length, ctx.drop wordHiddenStates.length)

/-- `SelfOutput` (`model.py` lines 183-194), dropout = identity. -/
structure SelfOutput where
  dense : Linear
  layerNorm : LayerNorm

def SelfOutput.forward (B : Backend) (so : SelfOutput)
    (hiddenStates inputTensor : Mat) : Mat :=
  List.zipWith (fun h i => so.layerNorm.forward B (vadd h i))
    (hiddenStates.map so.dense.forward) inputTensor

/-- `Attention` (`model.py` lines 197-208). -/
structure Attention where
  selfAttention : SelfAttention
  output : SelfOutput

def Attention.forward (B : Backend) (a : Attention) (w e : Mat) (mask : Vec) :
    Mat × Mat :=
  let p := a.selfAttention.forward B w e mask
  (a.output.forward B p.1 w, a.output.forward B p.2 e)

/-- `Intermediate` (`model.py` lines 211-219). -/
structure Intermediate where
  dense : Linear

def Intermediate.forward (B : Backend) (im : Intermediate) (hs : Mat) : Mat :=
  (hs.map im.dense.forward).map (fun v => v.map (gelu B))

/-- `Output` (`model.py` lines 222-233), dropout = identity. -/
structure Output where
  dense : Linear
  layerNorm : LayerNorm

def Output.forward (B : Backend) (o : Output) (hs inputTensor : Mat) : Mat :=
  List.zipWith (fun h i => o.layerNorm.forward B (vadd h i))
    (hs.map o.dense.forward) inputTensor

/-- `Layer` (`model.py` lines 236-250). -/
structure Layer where
  attention : Attention
  intermediate : Intermediate
  output : Output

def Layer.forward (B : Backend) (l : Layer) (w e : Mat) (mask : Vec) : Mat × Mat :=
  let a := l.attention.forward B w e mask
  let wi := l.intermediate.forward B a.1
  let ei := l.intermediate.forward B a.2
  (l.output.forward B wi a.1, l.output.forward B ei a.2)

/-- `Encoder` (`model.py` lines 253-269): the list of layers. -/
structure Encoder where
  layer : List Layer

/-- The per-iteration trace of the encoder loop: each layer consumes the
previous layer's (word, entity) pair and its output pair is appended. -/
def encoderSteps (B : Backend) (mask : Vec) : List Layer → Mat × Mat → List (Mat × Mat)
  | [], _ => []
  | l :: ls, p =>
    let q := l.forward B p.1 p.2 mask
    q :: encoderSteps B mask ls q

/-- Sequential application of the layers (the encoder loop's final state). -/
def runLayers (B : Backend) (mask : Vec) (ls : List Layer) (p : Mat × Mat) : Mat × Mat :=
  ls.foldl (fun p l => l.forward B p.1 p.2 mask) p

/-- `Encoder.forward` (lines 259-269): with `output_all_encoded_layers` the
result holds every layer's output pair in order, otherwise only the final
pair is appended. -/
def Encoder.forward (B : Backend) (enc : Encoder) (w e : Mat) (mask : Vec)
    (outputAllEncodedLayers : Bool) : List (Mat × Mat) :=
  if outputAllEncodedLayers then encoderSteps B mask enc.layer (w, e)
  else [runLayers B mask enc.layer (w, e)]

/-- `Pooler` (`model.py` lines 272-282): first word position, dense, tanh. -/
structure Pooler where
  dense : Linear

def Pooler.forward (B : Backend) (p : Pooler) (wordHiddenStates : Mat) : Vec :=
  (p.dense.forward (wordHiddenStates.getD 0 [])).map B.tanh

/-- `PredictionHeadTransform` (`model.py` lines 285-298). -/
structure PredictionHeadTransform where
  dense : Linear
  layerNorm : LayerNorm

def PredictionHeadTransform.forward (B : Backend) (t : PredictionHeadTransform)
    (h : Vec) : Vec :=
  t.layerNorm.forward B ((t.dense.forward h).map (gelu B))

/-- `LMPredictionHead` (`model.py` lines 301-317): the decoder's weight is
the tied word-embedding matrix (value level in this functional model; the
storage-level tying is stated over the reference model below). -/
structure LMPredictionHead where
  transform : PredictionHeadTransform
  decoder : Linear
  bias : Vec

def LMPredictionHead.forward (B : Backend) (h : LMPredictionHead) (x : Vec) : Vec :=
  vadd (h.decoder.forward (h.transform.forward B x)) h.bias

/-- `EntityPredictionHead` (`model.py` lines 320-334). -/
structure EntityPredictionHead where
  transform : PredictionHeadTransform
  decoder : Linear
  bias : Vec

def EntityPredictionHead.forward (B : Backend) (h : EntityPredictionHead) (x : Vec) : Vec :=
  vadd (h.decoder.forward (h.transform.forward B x)) h.bias

/-- `BertPreTrainingHeads` (`model.py` lines 337-346). -/
structure BertPreTrainingHeads where
  predictions : LMPredictionHead
  seqRelationship : Linear

/-- Line 363 and 366 of `LukeModel.forward`: concatenate the word and entity
attention masks along the sequence axis and convert to the additive bias
`(1.0 - mask) * -10000.0`. -/
def extendedAttentionMask (wordAttentionMask entityAttentionMask : Vec) : Vec :=
  (wordAttentionMask ++ entityAttentionMask).map (fun m => (1 - m) * (-10000))

/-- `LukeModel` (`model.py` lines 349-419): parameter values of the
functional model, plus the hidden width from the configuration. -/
structure LukeModel where
  encoder : Encoder
  pooler : Pooler
  embeddings : WordEmbeddings
  entityEmbeddings : EntityEmbeddings
  hiddenSize : ℕ

/-- `LukeModel.forward` (lines 360-380) for one batch element.  With
`output_all_encoded_layers=False` the code re-binds `encoded_layers` to the
final pair; this model returns the corresponding singleton list.  The pooled
output is computed from the final pair's word stream (`encoded_layers[-1][0]`). -/
def LukeModel.forward (B : Backend) (M : LukeModel)
    (wordIds wordSegmentIds : List ℕ) (wordAttentionMask : Vec)
    (entityIds : List ℕ) (entityPositionIds : List (List ℤ))
    (entitySegmentIds : List ℕ) (entityAttentionMask : Vec)
    (outputAllEncodedLayers : Bool) : List (Mat × Mat) × Vec :=
  let mask := extendedAttentionMask wordAttentionMask entityAttentionMask
  let we := M.embeddings.forward B wordIds wordSegmentIds
  let ee := M.entityEmbeddings.forward B M.hiddenSize entityIds entityPositionIds entitySegmentIds
  let encoded := M.encoder.forward B we ee mask outputAllEncodedLayers
  let wordSequenceOutput := (encoded.getLastD ([], [])).1
  let pooled := M.pooler.forward B wordSequenceOutput
  (if outputAllEncodedLayers then encoded else [encoded.getLastD ([], [])], pooled)

/-- `.view(-1, H)` on a flat list of scalars: consecutive groups of `H`. -/
def chunkRows (H : ℕ) (xs : List ℚ) : Mat :=
  if h : H = 0 ∨ xs = [] then []
  else xs.take H :: chunkRows H (xs.drop H)
termination_by xs.length
decreasing_by
  simp only [List.length_drop]
  have h1 := (not_or.mp h).1
  have h2 := List.length_pos.mpr (not_or.mp h).2
  omega

/-- `torch.masked_select(output, (labels != -1).unsqueeze(-1))` on a
(batch × entities × hidden) activation: row-major flattening of the scalars
of every position whose label is not the sentinel `-1`. -/
def maskedFlatten (out : List Mat) (labels : List (List ℤ)) : List ℚ :=
  ((List.zip out labels).map (fun bl =>
    ((List.zip bl.1 bl.2).map (fun p => if p.2 = -1 then [] else p.1)).flatten)).flatten

/-- Lines 447-448 / 461-462: `masked_select(...).view(-1, hidden_size)`. -/
def maskedSelectView (H : ℕ) (out : List Mat) (labels : List (List ℤ)) : Mat :=
  chunkRows H (maskedFlatten out labels)

/-- Lines 452 / 466: `torch.masked_select(labels, labels != -1)`,
row-major flattening of the non-sentinel labels. -/
def maskedSelectLabels (labels : List (List ℤ)) : List ℤ :=
  (labels.map (fun ls => ls.filter (fun z => z != -1))).flatten

/-- The (hidden-vector, label) pairs of the masked positions in row-major
order: the common index list of the two gathers above. -/
def selectedPairs (out : List Mat) (labels : List (List ℤ)) : List (Vec × ℤ) :=
  ((List.zip out labels).map (fun bl =>
    (List.zip bl.1 bl.2).filter (fun p => p.2 != -1))).flatten

/-- `torch.argmax(scores, 1)` on one row: index of the first maximum. -/
def argmax (v : Vec) : ℕ :=
  (((List.range v.length).zip v).foldl
    (fun best p => if best.2 < p.2 then p else best) (0, v.getD 0 0)).1

/-- One row's contribution to `CrossEntropyLoss`:
`log(sum_j exp(x_j)) - x_y` (the negative log-softmax of the target). -/
def ceTerm (B : Backend) (scores : Vec) (y : ℤ) : ℚ :=
  B.log ((scores.map B.exp).sum) - scores.getD y.toNat 0

/-- `CrossEntropyLoss(ignore_index=-1)` with mean reduction: average of the
per-row terms over the rows whose target is not `-1`. -/
def ceLoss (B : Backend) (scores : Mat) (labels : List ℤ) : ℚ :=
  let kept := (List.zip scores labels).filter (fun p => p.2 != -1)
  ((kept.map (fun p => ceTerm B p.1 p.2)).sum) / kept.length

/-- One batch element of the forward interface's input tensors. -/
structure ExampleInput where
  wordIds : List ℕ
  wordSegmentIds : List ℕ
  wordAttentionMask : Vec
  entityIds : List ℕ
  entityPositionIds : List (List ℤ)
  entitySegmentIds : List ℕ
  entityAttentionMask : Vec

/-- The `ret` dictionary of `LukePretrainingModel.forward` (lines 443-486):
`none` models an absent key (and the initial `loss=None`). -/
structure PretrainOutput where
  loss : Option ℚ
  maskedEntityLoss : Option ℚ
  maskedEntityCorrect : Option ℕ
  maskedEntityTotal : Option ℕ
  maskedLmLoss : Option ℚ
  maskedLmCorrect : Option ℕ
  maskedLmTotal : Option ℕ
  nspLoss : Option ℚ
  nspCorrect : Option ℕ
  nspTotal : Option ℕ

/-- The initial `ret = dict(loss=None)`. -/
def emptyPretrainOutput : PretrainOutput :=
  ⟨none, none, none, none, none, none, none, none, none, none⟩

/-- `LukePretrainingModel` (`model.py` lines 422-486). -/
structure LukePretrainingModel extends LukeModel where
  cls : BertPreTrainingHeads
  entityPredictions : EntityPredictionHead

/-- `LukePretrainingModel.forward` (lines 432-486).  The batch is a list of
independent examples; the base forward is invoked with
`output_all_encoded_layers=False`, and the three supervision branches run
exactly when their label argument is present, each adding its
cross-entropy term to `loss`. -/
def LukePretrainingModel.forward (B : Backend) (M : LukePretrainingModel)
    (batch : List ExampleInput)
    (maskedEntityLabels maskedLmLabels : Option (List (List ℤ)))
    (isRandomNext : Option (List ℤ)) : PretrainOutput :=
  let results := batch.map (fun ex =>
    M.toLukeModel.forward B ex.wordIds ex.wordSegmentIds ex.wordAttentionMask
      ex.entityIds ex.entityPositionIds ex.entitySegmentIds ex.entityAttentionMask false)
  let wordSequenceOutput := results.map (fun r => (r.1.getLastD ([], [])).1)
  let entitySequenceOutput := results.map (fun r => (r.1.getLastD ([], [])).2)
  let pooledOutput := results.map (fun r => r.2)
  let r0 := emptyPretrainOutput
  let r1 := match maskedEntityLabels with
    | none => r0
    | some labels =>
      let entityScores := (maskedSelectView M.hiddenSize entitySequenceOutput labels).map
        (M.entityPredictions.forward B)
      let entityLabels := maskedSelectLabels labels
      let l := ceLoss B entityScores entityLabels
      { r0 with
        maskedEntityLoss := some l
        maskedEntityCorrect := some ((List.zip entityScores entityLabels).countP
          (fun p => (argmax p.1 : ℤ) == p.2))
        maskedEntityTotal := some (entityLabels.countP (fun z => z != -1))
        loss := some l }
  let r2 := match maskedLmLabels with
    | none => r1
    | some labels =>
      let lmScores := (maskedSelectView M.hiddenSize wordSequenceOutput labels).map
        (M.cls.predictions.forward B)
      let lmLabels := maskedSelectLabels labels
      let l := ceLoss B lmScores lmLabels
      { r1 with
        maskedLmLoss := some l
        maskedLmCorrect := some ((List.zip lmScores lmLabels).countP
          (fun p => (argmax p.1 : ℤ) == p.2))
        maskedLmTotal := some (lmLabels.countP (fun z => z != -1))
        loss := match r1.loss with
          | none => some l
          | some l0 => some (l0 + l) }
  let r3 := match isRandomNext with
    | none => r2
    | some labels =>
      let nspScores := pooledOutput.map M.cls.seqRelationship.forward
      let l := ceLoss B nspScores labels
      { r2 with
        nspLoss := some l
        nspCorrect := some ((List.zip nspScores labels).countP
          (fun p => (argmax p.1 : ℤ) == p.2))
        nspTotal := some batch.length
        loss := match r2.loss with
          | none => some l
          | some l0 => some (l0 + l) }
  r3

/-- The word/entity sequence outputs seen by the supervision branches. -/
def pretrainingSequenceOutputs (B : Backend) (M : LukePretrainingModel)
    (batch : List ExampleInput) : List Mat × List Mat × Mat :=
  let results := batch.map (fun ex =>
    M.toLukeModel.forward B ex.wordIds ex.wordSegmentIds ex.wordAttentionMask
      ex.entityIds ex.entityPositionIds ex.entitySegmentIds ex.entityAttentionMask false)
  (results.map (fun r => (r.1.getLastD ([], [])).1),
   results.map (fun r => (r.1.getLastD ([], [])).2),
   results.map (fun r => r.2))

/-- The masked-entity cross-entropy term (lines 445-454). -/
def maskedEntityLossTerm (B : Backend) (M : LukePretrainingModel)
    (batch : List ExampleInput) (labels : List (List ℤ)) : ℚ :=
  ceLoss B
    ((maskedSelectView M.hiddenSize (pretrainingSequenceOutputs B M batch).2.1 labels).map
      (M.entityPredictions.forward B))
    (maskedSelectLabels labels)

/-- The masked-word cross-entropy term (lines 459-467). -/
def maskedLmLossTerm (B : Backend) (M : LukePretrainingModel)
    (batch : List ExampleInput) (labels : List (List ℤ)) : ℚ :=
  ceLoss B
    ((maskedSelectView M.hiddenSize (pretrainingSequenceOutputs B M batch).1 labels).map
      (M.cls.predictions.forward B))
    (maskedSelectLabels labels)

/-- The next-sentence-prediction cross-entropy term (lines 476-478). -/
def nspLossTerm (B : Backend) (M : LukePretrainingModel)
    (batch : List ExampleInput) (labels : List ℤ) : ℚ :=
  ceLoss B ((pretrainingSequenceOutputs B M batch).2.2.map M.cls.seqRelationship.forward) labels

/-- Modelled from the spec: the base forward of `luke.pretraining.model`
(that file is not under `src/`; only its caller
`multilingual/tasks/bucc/evaluator.py` is), which the BUCC evaluator invokes
with only word-stream arguments.  Per spec section 6, "entity-free invocation
is a supported degenerate case": it is modelled as running the fused encoder
with an all-absent (empty) entity stream. -/
def lukeModelForwardWordsOnly (B : Backend) (M : LukeModel)
    (wordIds wordSegmentIds : List ℕ) (wordAttentionMask : Vec) :
    List (Mat × Mat) × Vec :=
  M.forward B wordIds wordSegmentIds wordAttentionMask [] [] [] [] false

/-- Modelled from the spec: `LukeSentenceEmbedding.forward`
(`evaluator.py` lines 22-29) extracts `word_sequence_output[:, 0]`, the
summary-token representation, from the entity-free invocation. -/
def LukeSentenceEmbedding.forward (B : Backend) (M : LukeModel)
    (wordIds wordSegmentIds : List ℕ) (wordAttentionMask : Vec) : Vec :=
  (((lukeModelForwardWordsOnly B M wordIds wordSegmentIds wordAttentionMask).1.getLastD
    ([], [])).1).getD 0 []

/-- A dotted parameter path (a Python `str`), as a character list. -/
abbrev Key := List Char

/-- Python `str.replace` (used at line 401): replace every non-overlapping
occurrence of `pat` left-to-right.  The fuel argument (always called with
the subject's length, which suffices since every step consumes at least one
character) makes the recursion structural. -/
def replaceAllF (pat rep : List Char) : ℕ → List Char → List Char
  | _, [] => []
  | 0, s => s
  | fuel + 1, c :: cs =>
    if pat ≠ [] ∧ pat.isPrefixOf (c :: cs) then
      rep ++ replaceAllF pat rep fuel (cs.drop (pat.length - 1))
    else c :: replaceAllF pat rep fuel cs

def replaceAll (pat rep s : List Char) : List Char := replaceAllF pat rep s.length s

/-- Lines 400-407 of `load_bert_weights`: rename one checkpoint key by
replacing every occurrence of `gamma` with `weight` and of `beta` with
`bias`, then dropping a leading `bert.`. -/
def renameKey (k : Key) : Key :=
  let k2 := replaceAll "beta".toList "bias".toList
    (replaceAll "gamma".toList "weight".toList k)
  if ("bert.".toList).isPrefixOf k2 then k2.drop 5 else k2

/-- The checkpoint after the in-place key renaming loop. -/
def renameStateDict (sd : List (Key × Mat)) : List (Key × Mat) :=
  sd.map (fun p => (renameKey p.1, p.2))

/-- Lines 409-419: the recursive `_load_from_state_dict` walk (torch library
code) matches parameters by dotted path.  Net contract: a model parameter
whose path is a key of the renamed checkpoint takes the checkpoint tensor,
a parameter absent from the checkpoint keeps its current (initialized)
value, and the renamed checkpoint keys matching no model parameter are
returned as the unexpected keys (logged, never raised). -/
def loadBertWeights (modelParams : List (Key × Mat)) (sd : List (Key × Mat)) :
    List (Key × Mat) × List Key :=
  let sd2 := renameStateDict sd
  (modelParams.map (fun p => (p.1, (sd2.lookup p.1).getD p.2)),
   (sd2.filter (fun q => (modelParams.lookup q.1).isNone)).map Prod.fst)

/-- The parameter store: tensor values addressed by reference (a reference
to one `nn.Parameter`'s storage is a natural number).  Vector parameters are
stored as single-row matrices; only identity matters here. -/
abbrev Store := ℕ → Mat

/-- In-place mutation of one parameter's data. -/
def writeStore (σ : Store) (r : ℕ) (v : Mat) : Store :=
  fun r2 => if r2 = r then v else σ r2

/-- References held by an `nn.Linear` (weight, and bias unless `bias=False`). -/
structure LinearRefs where
  weight : ℕ
  bias : Option ℕ
deriving Repr, DecidableEq, Inhabited

def mkLinear (withBias : Bool) (c : ℕ) : LinearRefs × ℕ :=
  if withBias then (⟨c, some (c + 1)⟩, c + 2) else (⟨c, none⟩, c + 1)

def LinearRefs.refs (l : LinearRefs) : List ℕ := l.weight :: l.bias.toList

structure EmbeddingRefs where
  weight : ℕ
deriving Repr, DecidableEq

def mkEmbedding (c : ℕ) : EmbeddingRefs × ℕ := (⟨c⟩, c + 1)

structure LayerNormRefs where
  weight : ℕ
  bias : ℕ
deriving Repr, DecidableEq, Inhabited

def mkLayerNorm (c : ℕ) : LayerNormRefs × ℕ := (⟨c, c + 1⟩, c + 2)

structure SelfAttentionRefs where
  query : LinearRefs
  key : LinearRefs
  value : LinearRefs
deriving Repr, DecidableEq, Inhabited

def mkSelfAttentionRefs (c : ℕ) : SelfAttentionRefs × ℕ :=
  let q := mkLinear true c
  let k := mkLinear true q.2
  let v := mkLinear true k.2
  (⟨q.1, k.1, v.1⟩, v.2)

structure SelfOutputRefs where
  dense : LinearRefs
  layerNorm : LayerNormRefs
deriving Repr, DecidableEq, Inhabited

def mkSelfOutputRefs (c : ℕ) : SelfOutputRefs × ℕ :=
  let d := mkLinear true c
  let l := mkLayerNorm d.2
  (⟨d.1, l.1⟩, l.2)

structure AttentionRefs where
  selfAttention : SelfAttentionRefs
  output : SelfOutputRefs
deriving Repr, DecidableEq, Inhabited

def mkAttentionRefs (c : ℕ) : AttentionRefs × ℕ :=
  let s := mkSelfAttentionRefs c
  let o := mkSelfOutputRefs s.2
  (⟨s.1, o.1⟩, o.2)

structure IntermediateRefs where
  dense : LinearRefs
deriving Repr, DecidableEq, Inhabited

def mkIntermediateRefs (c : ℕ) : IntermediateRefs × ℕ :=
  let d := mkLinear true c
  (⟨d.1⟩, d.2)

structure OutputRefs where
  dense : LinearRefs
  layerNorm : LayerNormRefs
deriving Repr, DecidableEq, Inhabited

def mkOutputRefs (c : ℕ) : OutputRefs × ℕ :=
  let d := mkLinear true c
  let l := mkLayerNorm d.2
  (⟨d.1, l.1⟩, l.2)

/-- References held by one encoder `Layer` (16 parameters). -/
structure LayerRefs where
  attention : AttentionRefs
  intermediate : IntermediateRefs
  output : OutputRefs
deriving Repr, DecidableEq, Inhabited

def mkLayerRefs (c : ℕ) : LayerRefs × ℕ :=
  let a := mkAttentionRefs c
  let i := mkIntermediateRefs a.2
  let o := mkOutputRefs i.2
  (⟨a.1, i.1, o.1⟩, o.2)

def LayerRefs.refs (l : LayerRefs) : List ℕ :=
  l.attention.selfAttention.query.refs ++ l.attention.selfAttention.key.refs ++
  l.attention.selfAttention.value.refs ++ l.attention.output.dense.refs ++
  [l.attention.output.layerNorm.weight, l.attention.output.layerNorm.bias] ++
  l.intermediate.dense.refs ++ l.output.dense.refs ++
  [l.output.layerNorm.weight, l.output.layerNorm.bias]

/-- `Encoder.__init__` (lines 254-257): one prototype `Layer(config)` is
constructed, then `copy.deepcopy` duplicates it `num_hidden_layers` times;
each deep copy allocates a fresh reference for every parameter (the
prototype itself is not stored in the `ModuleList`). -/
def mkEncoderLayers : ℕ → ℕ → List LayerRefs × ℕ
  | 0, c => ([], c)
  | n + 1, c =>
    let l := mkLayerRefs c
    let rest := mkEncoderLayers n l.2
    (l.1 :: rest.1, rest.2)

structure EncoderRefs where
  layer : List LayerRefs
deriving Repr, DecidableEq

def mkEncoderRefs (n : ℕ) (c : ℕ) : EncoderRefs × ℕ :=
  let proto := mkLayerRefs c
  let ls := mkEncoderLayers n proto.2
  (⟨ls.1⟩, ls.2)

structure PoolerRefs where
  dense : LinearRefs
deriving Repr, DecidableEq

def mkPoolerRefs (c : ℕ) : PoolerRefs × ℕ :=
  let d := mkLinear true c
  (⟨d.1⟩, d.2)

structure WordEmbeddingsRefs where
  wordEmbeddings : EmbeddingRefs
  positionEmbeddings : EmbeddingRefs
  tokenTypeEmbeddings : EmbeddingRefs
  layerNorm : LayerNormRefs
deriving Repr, DecidableEq

def mkWordEmbeddingsRefs (c : ℕ) : WordEmbeddingsRefs × ℕ :=
  let w := mkEmbedding c
  let p := mkEmbedding w.2
  let t := mkEmbedding p.2
  let l := mkLayerNorm t.2
  (⟨w.1, p.1, t.1, l.1⟩, l.2)

structure EntityEmbeddingsRefs where
  entityEmbeddings : EmbeddingRefs
  positionEmbeddings : EmbeddingRefs
  tokenTypeEmbeddings : EmbeddingRefs
  entityDense : Option LinearRefs
  layerNorm : LayerNormRefs
deriving Repr, DecidableEq

/-- `hasDense` holds exactly when `entity_emb_size != hidden_size`. -/
def mkEntityEmbeddingsRefs (hasDense : Bool) (c : ℕ) : EntityEmbeddingsRefs × ℕ :=
  let e := mkEmbedding c
  let p := mkEmbedding e.2
  let t := mkEmbedding p.2
  let d : Option LinearRefs × ℕ :=
    if hasDense then
      let dd := mkLinear false t.2
      (some dd.1, dd.2)
    else (none, t.2)
  let l := mkLayerNorm d.2
  (⟨e.1, p.1, t.1, d.1, l.1⟩, l.2)

/-- `LukeModel.__init__` (lines 350-358): encoder, pooler, word
embeddings, entity embeddings, in construction order. -/
structure LukeModelRefs where
  encoder : EncoderRefs
  pooler : PoolerRefs
  embeddings : WordEmbeddingsRefs
  entityEmbeddings : EntityEmbeddingsRefs
deriving Repr, DecidableEq

def mkLukeModelRefs (n : ℕ) (hasDense : Bool) (c : ℕ) : LukeModelRefs × ℕ :=
  let e := mkEncoderRefs n c
  let p := mkPoolerRefs e.2
  let w := mkWordEmbeddingsRefs p.2
  let ee := mkEntityEmbeddingsRefs hasDense w.2
  (⟨e.1, p.1, w.1, ee.1⟩, ee.2)

structure PredictionHeadTransformRefs where
  dense : LinearRefs
  layerNorm : LayerNormRefs
deriving Repr, DecidableEq

def mkPredictionHeadTransformRefs (c : ℕ) : PredictionHeadTransformRefs × ℕ :=
  let d := mkLinear true c
  let l := mkLayerNorm d.2
  (⟨d.1, l.1⟩, l.2)

/-- `LMPredictionHead.__init__` (lines 302-312): the transform, a
`nn.Linear(..., bias=False)` decoder whose freshly allocated weight is then
rebound to the tied embedding reference
(`self.decoder.weight = word_embedding_weights`, line 311), and a separate
output-only bias parameter. -/
structure LMPredictionHeadRefs where
  transform : PredictionHeadTransformRefs
  decoder : LinearRefs
  bias : ℕ
deriving Repr, DecidableEq

def mkLMPredictionHeadRefs (tied : ℕ) (c : ℕ) : LMPredictionHeadRefs × ℕ :=
  let t := mkPredictionHeadTransformRefs c
  let d := mkLinear false t.2
  let d2 : LinearRefs := { d.1 with weight := tied }
  (⟨t.1, d2, d.2⟩, d.2 + 1)

/-- `EntityPredictionHead.__init__` (lines 321-329), same tying pattern. -/
structure EntityPredictionHeadRefs where
  transform : PredictionHeadTransformRefs
  decoder : LinearRefs
  bias : ℕ
deriving Repr, DecidableEq

def mkEntityPredictionHeadRefs (tied : ℕ) (c : ℕ) : EntityPredictionHeadRefs × ℕ :=
  let t := mkPredictionHeadTransformRefs c
  let d := mkLinear false t.2
  let d2 : LinearRefs := { d.1 with weight := tied }
  (⟨t.1, d2, d.2⟩, d.2 + 1)

structure BertPreTrainingHeadsRefs where
  predictions : LMPredictionHeadRefs
  seqRelationship : LinearRefs
deriving Repr, DecidableEq

def mkBertPreTrainingHeadsRefs (tied : ℕ) (c : ℕ) : BertPreTrainingHeadsRefs × ℕ :=
  let p := mkLMPredictionHeadRefs tied c
  let s := mkLinear true p.2
  (⟨p.1, s.1⟩, s.2)

/-- `LukePretrainingModel.__init__` (lines 423-430): the base model, then
`BertPreTrainingHeads` tied to `self.embeddings.word_embeddings.weight`,
then `EntityPredictionHead` tied to
`self.entity_embeddings.entity_embeddings.weight`. -/
structure LukePretrainingModelRefs extends LukeModelRefs where
  cls : BertPreTrainingHeadsRefs
  entityPredictions : EntityPredictionHeadRefs
deriving Repr, DecidableEq

def mkLukePretrainingModelRefs (n : ℕ) (hasDense : Bool) (c : ℕ) :
    LukePretrainingModelRefs × ℕ :=
  let b := mkLukeModelRefs n hasDense c
  let h := mkBertPreTrainingHeadsRefs b.1.embeddings.wordEmbeddings.weight b.2
  let ep := mkEntityPredictionHeadRefs b.1.entityEmbeddings.entityEmbeddings.weight h.2
  ({ toLukeModelRefs := b.1, cls := h.1, entityPredictions := ep.1 }, ep.2)

/-- The reference graph of a freshly constructed `LukePretrainingModel`. -/
def pretrainRefs (n : ℕ) (hasDense : Bool) : LukePretrainingModelRefs :=
  (mkLukePretrainingModelRefs n hasDense 0).1

/-- A concrete backend instance used by evaluation witnesses. -/
def constBackend : Backend :=
  ⟨fun _ => 1, fun _ => 0, fun _ => 0, fun _ => 1, fun _ => 0⟩

/-- A backend whose square root is exact at the point `1e-12` actually used
by the layer-normalization of an all-constant slice. -/
def sqrtEpsBackend : Backend :=
  ⟨fun _ => 0, fun _ => 0, fun _ => 0, fun q => if q = 1e-12 then 1e-6 else 0, fun _ => 0⟩

/-- A width-2 `LayerNorm` as constructed by the code (`eps = 1e-12`). -/
def tinyLayerNorm : LayerNorm := ⟨[1, 1], [0, 0], 1e-12⟩

/-- A width-1 `LayerNorm` as constructed by the code (`eps = 1e-12`). -/
def oneLayerNorm : LayerNorm := ⟨[1], [0], 1e-12⟩

/-- A one-head, width-1 attention instance used by witnesses. -/
def tinySelfAttention : SelfAttention :=
  ⟨1, 1, ⟨[[0]], some [0]⟩, ⟨[[0]], some [0]⟩, ⟨[[1]], some [0]⟩⟩

/-- A minimal concrete model instance used by witnesses. -/
def tinyLukeModel : LukeModel :=
  { encoder := ⟨[]⟩
    pooler := ⟨⟨[[1]], some [0]⟩⟩
    embeddings := ⟨[[1]], [[0]], [[0]], oneLayerNorm⟩
    entityEmbeddings := ⟨[[1]], [[0]], [[0]], none, oneLayerNorm⟩
    hiddenSize := 1 }

/-- A minimal concrete pretraining model instance used by witnesses. -/
def tinyPretrainingModel : LukePretrainingModel :=
  { toLukeModel := tinyLukeModel
    cls := ⟨⟨⟨⟨[[1]], some [0]⟩, oneLayerNorm⟩, ⟨[[1]], none⟩, [0]⟩, ⟨[[1]], some [0]⟩⟩
    entityPredictions := ⟨⟨⟨[[1]], some [0]⟩, oneLayerNorm⟩, ⟨[[1]], none⟩, [0]⟩ }

section Theorems

/-- The joint attention output has one row per joint position. -/
theorem SelfAttention.joint_length (B : Backend) (sa : SelfAttention)
    (hs : Mat) (mask : Vec) : (sa.joint B hs mask).length = hs.length := by
  simp [SelfAttention.joint]

/-- C1.  `SelfAttention.forward` concatenates the word stream (length `W`)
and entity stream (length `E`) into one joint sequence, attends jointly,
and splits the joint context at the same boundary `W`: the word output has
exactly `W` rows and the entity output exactly `E` rows, and they are the
two slices of the joint attention output of the concatenated sequence.
Moreover an output position depends on the full joint sequence, not on one
stream alone: there is an instance where changing only the entity stream
changes the word output. -/
theorem c1_self_attention_fused_split (B : Backend) (sa : SelfAttention)
    (w e : Mat) (mask : Vec) :
    (sa.forward B w e mask).1.length = w.length ∧
    (sa.forward B w e mask).2.length = e.length ∧
    (sa.forward B w e mask).1 = (sa.joint B (w ++ e) mask).take w.length ∧
    (sa.forward B w e mask).2 = (sa.joint B (w ++ e) mask).drop w.length ∧
    ∃ B2 sa2 w2 mask2 e1 e2, e1.length = e2.length ∧
      (SelfAttention.forward B2 sa2 w2 e1 mask2).1 ≠
        (SelfAttention.forward B2 sa2 w2 e2 mask2).1 := by
  refine ⟨?_, ?_, rfl, rfl, ?_⟩
  · simp [SelfAttention.forward, SelfAttention.joint_length]
  · simp [SelfAttention.forward, SelfAttention.joint_length]
  · refine ⟨constBackend, ⟨1, 1, ⟨[[0]], some [0]⟩, ⟨[[0]], some [0]⟩, ⟨[[1]], some [0]⟩⟩,
      [[1]], [0, 0], [[0]], [[2]], rfl, ?_⟩
    simp [SelfAttention.forward, SelfAttention.joint, attnContextHead, softmax, Linear.forward,
      headSlice, dot, vsum, vadd, zeros, constBackend, List.range_succ]

/-- Closed witness for C1 at a concrete one-word, one-entity input. -/
theorem c1_self_attention_fused_split_witness :
    (SelfAttention.forward constBackend tinySelfAttention [[1]] [[0]] [0, 0]).1.length = 1 ∧
    (SelfAttention.forward constBackend tinySelfAttention [[1]] [[0]] [0, 0]).2.length = 1 := by
  have h := c1_self_attention_fused_split constBackend tinySelfAttention [[1]] [[0]] [0, 0]
  exact ⟨h.1, h.2.1⟩

/-- C5.  The attention mask is the concatenation of the word and entity
attention masks converted to an additive bias: value 1 becomes bias 0,
value 0 becomes bias exactly `-10000` (a finite rational), and the bias is
added to the scaled attention scores before the softmax. -/
theorem c5_attention_mask_bias (wm em : Vec) (i : ℕ) (v : ℚ)
    (hv : (wm ++ em)[i]? = some v) :
    (extendedAttentionMask wm em).length = wm.length + em.length ∧
    extendedAttentionMask wm em = (wm ++ em).map (fun m => (1 - m) * (-10000)) ∧
    (extendedAttentionMask wm em)[i]? = some ((1 - v) * (-10000)) ∧
    (v = 1 → (extendedAttentionMask wm em)[i]? = some 0) ∧
    (v = 0 → (extendedAttentionMask wm em)[i]? = some (-10000)) ∧
    (∀ (B : Backend) (hsz : ℕ) (ks vs : Mat) (qi : Vec),
      attnContextHead B hsz ks vs (extendedAttentionMask wm em) qi =
        vsum hsz (List.zipWith (fun p vj => vj.map (fun a => p * a))
          (softmax B (List.zipWith (fun kj mj => dot qi kj / B.sqrt (hsz : ℚ) + mj)
            ks (extendedAttentionMask wm em))) vs)) := by
  have hm : (extendedAttentionMask wm em)[i]? = some ((1 - v) * (-10000)) := by
    simp only [extendedAttentionMask, List.getElem?_map, hv]
    rfl
  refine ⟨by simp [extendedAttentionMask], rfl, hm, ?_, ?_, fun B hsz ks vs qi => rfl⟩
  · intro h1; rw [hm, h1]; norm_num
  · intro h0; rw [hm, h0]; norm_num

/-- Closed witness for the hypothesised C5 statement at a concrete mask. -/
theorem c5_attention_mask_bias_witness :
    (extendedAttentionMask [1, 0] [1])[1]? = some ((-10000 : ℚ)) ∧
    (extendedAttentionMask [1, 0] [1])[0]? = some ((0 : ℚ)) := by
  constructor
  · exact (c5_attention_mask_bias [1, 0] [1] 1 0 (by norm_num)).2.2.2.2.1 rfl
  · exact (c5_attention_mask_bias [1, 0] [1] 0 1 (by norm_num)).2.2.2.1 rfl

/-- C2.  `LukePretrainingModel.forward` returns `loss = None` (and runs no
supervision branch, raising nothing) when all three label arguments are
absent; with only masked-entity labels the loss is exactly the
masked-entity cross-entropy term; with several label arguments present the
loss is the sum of the corresponding cross-entropy terms. -/
theorem c2_pretraining_loss_composition (B : Backend) (M : LukePretrainingModel)
    (batch : List ExampleInput) :
    M.forward B batch none none none = emptyPretrainOutput ∧
    (M.forward B batch none none none).loss = none ∧
    (∀ mel, (M.forward B batch (some mel) none none).loss =
      some (maskedEntityLossTerm B M batch mel)) ∧
    (∀ mll, (M.forward B batch none (some mll) none).loss =
      some (maskedLmLossTerm B M batch mll)) ∧
    (∀ irn, (M.forward B batch none none (some irn)).loss =
      some (nspLossTerm B M batch irn)) ∧
    (∀ mel mll, (M.forward B batch (some mel) (some mll) none).loss =
      some (maskedEntityLossTerm B M batch mel + maskedLmLossTerm B M batch mll)) ∧
    (∀ mel irn, (M.forward B batch (some mel) none (some irn)).loss =
      some (maskedEntityLossTerm B M batch mel + nspLossTerm B M batch irn)) ∧
    (∀ mll irn, (M.forward B batch none (some mll) (some irn)).loss =
      some (maskedLmLossTerm B M batch mll + nspLossTerm B M batch irn)) ∧
    (∀ mel mll irn, (M.forward B batch (some mel) (some mll) (some irn)).loss =
      some (maskedEntityLossTerm B M batch mel + maskedLmLossTerm B M batch mll +
        nspLossTerm B M batch irn)) :=
  ⟨rfl, rfl, fun _ => rfl, fun _ => rfl, fun _ => rfl, fun _ _ => rfl, fun _ _ => rfl,
    fun _ _ => rfl, fun _ _ _ => rfl⟩

/-- Closed witness for C2 at a concrete model and empty batch. -/
theorem c2_pretraining_loss_composition_witness :
    (tinyPretrainingModel.forward constBackend [] none none none).loss = none ∧
    tinyPretrainingModel.forward constBackend [] none none none = emptyPretrainOutput := by
  have h := c2_pretraining_loss_composition constBackend tinyPretrainingModel []
  exact ⟨h.2.1, h.1⟩

/-- One `Layer` allocates exactly 16 parameter references. -/
theorem mkLayerRefs_snd (c : ℕ) : (mkLayerRefs c).2 = c + 16 := by
  simp [mkLayerRefs, mkAttentionRefs, mkSelfAttentionRefs, mkSelfOutputRefs,
    mkIntermediateRefs, mkOutputRefs, mkLinear, mkLayerNorm]

theorem mkEncoderLayers_snd (n c : ℕ) : (mkEncoderLayers n c).2 = c + 16 * n := by
  induction n generalizing c with
  | zero => simp [mkEncoderLayers]
  | succ k ih =>
    simp only [mkEncoderLayers, ih, mkLayerRefs_snd]
    omega

theorem mkEncoderLayers_length (n c : ℕ) : (mkEncoderLayers n c).1.length = n := by
  induction n generalizing c with
  | zero => simp [mkEncoderLayers]
  | succ k ih => simp [mkEncoderLayers, ih]

/-- The `i`-th deep copy has the same reference structure as a layer freshly
allocated at counter `c + 16 * i`. -/
theorem mkEncoderLayers_get (n c i : ℕ) (h : i < n) :
    (mkEncoderLayers n c).1[i]? = some (mkLayerRefs (c + 16 * i)).1 := by
  induction n generalizing c i with
  | zero => omega
  | succ k ih =>
    cases i with
    | zero => simp [mkEncoderLayers]
    | succ j =>
      simp only [mkEncoderLayers, List.getElem?_cons_succ, mkLayerRefs_snd]
      rw [show c + 16 * (j + 1) = c + 16 + 16 * j by ring]
      exact ih (c + 16) j (by omega)

/-- Every reference of a layer allocated at counter `c` lies in `[c, c+16)`. -/
theorem mkLayerRefs_refs_bound (c r : ℕ) (h : r ∈ (mkLayerRefs c).1.refs) :
    c ≤ r ∧ r < c + 16 := by
  simp [LayerRefs.refs, LinearRefs.refs, mkLayerRefs, mkAttentionRefs, mkSelfAttentionRefs,
    mkSelfOutputRefs, mkIntermediateRefs, mkOutputRefs, mkLinear, mkLayerNorm,
    Option.toList] at h
  rcases h with h|h|h|h|h|h|h|h|h|h|h|h|h|h|h|h <;> omega

/-- C3.  In the freshly constructed `LukePretrainingModel`, the word
prediction decoder's weight is the same parameter storage as the word
input-embedding weight, the entity decoder's weight is the same storage as
the entity input-embedding weight, the decoder biases are separate
parameters, and (after any sequence of in-place store updates `τ`, which
includes `init_weights`) a mutation of the embedding weight is observable
through the tied decoder weight. -/
theorem c3_weight_tying (n : ℕ) (hasDense : Bool) :
    (pretrainRefs n hasDense).cls.predictions.decoder.weight =
      (pretrainRefs n hasDense).embeddings.wordEmbeddings.weight ∧
    (pretrainRefs n hasDense).entityPredictions.decoder.weight =
      (pretrainRefs n hasDense).entityEmbeddings.entityEmbeddings.weight ∧
    (pretrainRefs n hasDense).cls.predictions.bias ≠
      (pretrainRefs n hasDense).cls.predictions.decoder.weight ∧
    (pretrainRefs n hasDense).entityPredictions.bias ≠
      (pretrainRefs n hasDense).entityPredictions.decoder.weight ∧
    (∀ (τ : Store → Store) (σ : Store) (v : Mat),
      writeStore (τ σ) ((pretrainRefs n hasDense).embeddings.wordEmbeddings.weight) v
        ((pretrainRefs n hasDense).cls.predictions.decoder.weight) = v) ∧
    (∀ (τ : Store → Store) (σ : Store) (v : Mat),
      writeStore (τ σ) ((pretrainRefs n hasDense).entityEmbeddings.entityEmbeddings.weight) v
        ((pretrainRefs n hasDense).entityPredictions.decoder.weight) = v) := by
  have h1 : (pretrainRefs n hasDense).cls.predictions.decoder.weight =
      (pretrainRefs n hasDense).embeddings.wordEmbeddings.weight := rfl
  have h2 : (pretrainRefs n hasDense).entityPredictions.decoder.weight =
      (pretrainRefs n hasDense).entityEmbeddings.entityEmbeddings.weight := rfl
  refine ⟨h1, h2, ?_, ?_, ?_, ?_⟩
  · intro h
    rw [h1] at h
    cases hasDense
    all_goals
      simp only [pretrainRefs, mkLukePretrainingModelRefs, mkLukeModelRefs, mkEncoderRefs,
        mkPoolerRefs, mkWordEmbeddingsRefs, mkEntityEmbeddingsRefs, mkEmbedding, mkLayerNorm,
        mkLinear, mkBertPreTrainingHeadsRefs, mkLMPredictionHeadRefs,
        mkEntityPredictionHeadRefs, mkPredictionHeadTransformRefs, mkEncoderLayers_snd,
        mkLayerRefs_snd, Bool.false_eq_true, if_false, if_true] at h
    all_goals omega
  · intro h
    rw [h2] at h
    cases hasDense
    all_goals
      simp only [pretrainRefs, mkLukePretrainingModelRefs, mkLukeModelRefs, mkEncoderRefs,
        mkPoolerRefs, mkWordEmbeddingsRefs, mkEntityEmbeddingsRefs, mkEmbedding, mkLayerNorm,
        mkLinear, mkBertPreTrainingHeadsRefs, mkLMPredictionHeadRefs,
        mkEntityPredictionHeadRefs, mkPredictionHeadTransformRefs, mkEncoderLayers_snd,
        mkLayerRefs_snd, Bool.false_eq_true, if_false, if_true] at h
    all_goals omega
  · intro τ σ v
    rw [h1]
    simp [writeStore]
  · intro τ σ v
    rw [h2]
    simp [writeStore]

/-- Closed witness for C3 with no encoder layers and a concrete store write. -/
theorem c3_weight_tying_witness :
    (pretrainRefs 0 false).cls.predictions.decoder.weight =
      (pretrainRefs 0 false).embeddings.wordEmbeddings.weight ∧
    writeStore (id (fun _ => ([] : Mat)))
      ((pretrainRefs 0 false).embeddings.wordEmbeddings.weight) [[5]]
      ((pretrainRefs 0 false).cls.predictions.decoder.weight) = [[5]] := by
  have h := c3_weight_tying 0 false
  exact ⟨h.1, h.2.2.2.2.1 id (fun _ => []) [[5]]⟩

theorem encoderSteps_length (B : Backend) (mask : Vec) (ls : List Layer) (p : Mat × Mat) :
    (encoderSteps B mask ls p).length = ls.length := by
  induction ls generalizing p with
  | nil => rfl
  | cons l t ih => simp [encoderSteps, ih]

/-- The `k`-th collected pair is the sequential composition of the first
`k + 1` layers. -/
theorem encoderSteps_get (B : Backend) (mask : Vec) (ls : List Layer) (p : Mat × Mat)
    (k : ℕ) (h : k < ls.length) :
    (encoderSteps B mask ls p)[k]? = some (runLayers B mask (ls.take (k + 1)) p) := by
  induction ls generalizing p k with
  | nil => simp at h
  | cons l t ih =>
    cases k with
    | zero => simp [encoderSteps, runLayers]
    | succ j =>
      simp only [encoderSteps, List.getElem?_cons_succ, List.take_succ_cons, runLayers,
        List.foldl_cons]
      exact ih (l.forward B p.1 p.2 mask) j (by simpa using h)

/-- C9.  The encoder holds exactly `num_hidden_layers` structurally
identical layers; distinct layers share no parameter storage, so a write to
one layer's parameter leaves every other layer's parameters unchanged; the
layers are applied sequentially, each consuming the previous pair, and
`output_all_encoded_layers` selects between collecting every layer's output
pair in order and returning only the final pair. -/
theorem c9_encoder_independent_layers (n c i j : ℕ) (li lj : LayerRefs)
    (hij : i ≠ j)
    (hi : (mkEncoderRefs n c).1.layer[i]? = some li)
    (hj : (mkEncoderRefs n c).1.layer[j]? = some lj) :
    (mkEncoderRefs n c).1.layer.length = n ∧
    li = (mkLayerRefs (c + 16 + 16 * i)).1 ∧
    (∀ r ∈ li.refs, ∀ r2 ∈ lj.refs, r ≠ r2) ∧
    (∀ (σ : Store) (v : Mat) (r r2 : ℕ), r ∈ li.refs → r2 ∈ lj.refs →
      writeStore σ r v r2 = σ r2) ∧
    (∀ (B : Backend) (enc : Encoder) (w e : Mat) (mask : Vec),
      (enc.forward B w e mask true).length = enc.layer.length ∧
      (∀ k, k < enc.layer.length →
        (enc.forward B w e mask true)[k]? =
          some (runLayers B mask (enc.layer.take (k + 1)) (w, e))) ∧
      enc.forward B w e mask false = [runLayers B mask enc.layer (w, e)]) := by
  have hilt : i < n := by
    by_contra hn
    rw [List.getElem?_eq_none] at hi
    · exact Option.noConfusion hi
    · simp [mkEncoderRefs, mkEncoderLayers_length]
      omega
  have hjlt : j < n := by
    by_contra hn
    rw [List.getElem?_eq_none] at hj
    · exact Option.noConfusion hj
    · simp [mkEncoderRefs, mkEncoderLayers_length]
      omega
  have hgi : (mkEncoderRefs n c).1.layer[i]? = some (mkLayerRefs (c + 16 + 16 * i)).1 := by
    simp only [mkEncoderRefs, mkLayerRefs_snd]
    exact mkEncoderLayers_get n (c + 16) i hilt
  have hgj : (mkEncoderRefs n c).1.layer[j]? = some (mkLayerRefs (c + 16 + 16 * j)).1 := by
    simp only [mkEncoderRefs, mkLayerRefs_snd]
    exact mkEncoderLayers_get n (c + 16) j hjlt
  have hli : li = (mkLayerRefs (c + 16 + 16 * i)).1 := by
    rw [hi] at hgi
    exact Option.some_injective _ hgi
  have hlj : lj = (mkLayerRefs (c + 16 + 16 * j)).1 := by
    rw [hj] at hgj
    exact Option.some_injective _ hgj
  have hdisj : ∀ r ∈ li.refs, ∀ r2 ∈ lj.refs, r ≠ r2 := by
    intro r hr r2 hr2
    rw [hli] at hr
    rw [hlj] at hr2
    have b1 := mkLayerRefs_refs_bound (c + 16 + 16 * i) r hr
    have b2 := mkLayerRefs_refs_bound (c + 16 + 16 * j) r2 hr2
    omega
  refine ⟨by simp [mkEncoderRefs, mkEncoderLayers_length], hli, hdisj, ?_, ?_⟩
  · intro σ v r r2 hr hr2
    have hne := hdisj r hr r2 hr2
    simp only [writeStore]
    rw [if_neg (fun hh => hne (hh.symm))]
  · intro B enc w e mask
    refine ⟨?_, ?_, rfl⟩
    · simp [Encoder.forward, encoderSteps_length]
    · intro k hk
      simp only [Encoder.forward, if_true]
      exact encoderSteps_get B mask enc.layer (w, e) k hk

/-- Closed witness for C9 at a two-layer encoder. -/
theorem c9_encoder_independent_layers_witness :
    (mkEncoderRefs 2 0).1.layer.length = 2 ∧
    (∀ r ∈ ((mkLayerRefs 16).1).refs, ∀ r2 ∈ ((mkLayerRefs 32).1).refs, r ≠ r2) := by
  have h := c9_encoder_independent_layers 2 0 0 1 (mkLayerRefs 16).1 (mkLayerRefs 32).1
    (by omega) (by rfl) (by rfl)
  exact ⟨h.1, by simpa using h.2.2.1⟩

theorem embLookup_length (T : Mat) (H i : ℕ) (hT : ∀ r ∈ T, r.length = H)
    (hi : i < T.length) : (embLookup T i).length = H := by
  rw [embLookup, List.getD_eq_getElem T [] hi]
  exact hT _ (List.getElem_mem hi)

theorem vadd_zeros_right (acc z : Vec) (hz : ∀ x ∈ z, x = 0) (h : z.length = acc.length) :
    vadd acc z = acc := by
  induction acc generalizing z with
  | nil =>
    cases z with
    | nil => rfl
    | cons b u => simp at h
  | cons a t ih =>
    cases z with
    | nil => simp at h
    | cons b u =>
      have hb : b = 0 := hz b (List.mem_cons_self b u)
      simp only [vadd, List.zipWith_cons_cons, hb, add_zero]
      congr 1
      exact ih u (fun x hx => hz x (List.mem_cons_of_mem b hx)) (by simpa using h)

theorem map_one_mul (z : Vec) : z.map (fun a => (1 : ℚ) * a) = z := by
  simp

/-- The validity mask's sum is the number of non-sentinel slots. -/
theorem mask_sum_eq_countP (slots : List ℤ) :
    (slots.map (fun p => if p = -1 then (0 : ℚ) else 1)).sum =
      (slots.countP (fun p => p != -1) : ℚ) := by
  induction slots with
  | nil => simp
  | cons p t ih =>
    by_cases hp : p = -1
    · simp [hp, ih, List.countP_cons]
    · simp [hp, ih, List.countP_cons]
      ring

/-- Folding the mask-scaled position embeddings equals folding the
embeddings of the valid slots only. -/
theorem foldl_vadd_masked (T : Mat) (H : ℕ) (hT : ∀ r ∈ T, r.length = H)
    (slots : List ℤ) :
    ∀ (acc : Vec), acc.length = H →
      (∀ p ∈ slots, (max p 0).toNat < T.length) →
      List.foldl vadd acc
        (List.zipWith (fun m e => e.map (fun a => m * a))
          (slots.map (fun p => if p = -1 then (0 : ℚ) else 1))
          (slots.map (fun p => embLookup T (max p 0).toNat))) =
      List.foldl vadd acc ((slots.filter (fun p => p != -1)).map
        (fun p => embLookup T (max p 0).toNat)) := by
  induction slots with
  | nil => intro acc _ _; rfl
  | cons p t ih =>
    intro acc hacc hidx
    have hlook : (embLookup T (max p 0).toNat).length = H :=
      embLookup_length T H _ hT (hidx p (List.mem_cons_self p t))
    by_cases hp : p = -1
    · subst hp
      simp only [List.map_cons, List.zipWith_cons_cons, List.foldl_cons, List.filter_cons,
        show ((if (-1 : ℤ) = -1 then (0 : ℚ) else 1)) = 0 by norm_num,
        show ((-1 : ℤ) != -1) = false from rfl, Bool.false_eq_true, if_false]
      rw [vadd_zeros_right acc _
        (by
          intro x hx
          obtain ⟨y, hy, rfl⟩ := List.mem_map.mp hx
          exact zero_mul y)
        (by rw [List.length_map, hlook, hacc])]
      exact ih acc hacc (fun q hq => hidx q (List.mem_cons_of_mem _ hq))
    · have h1 : ((if p = -1 then (0 : ℚ) else 1)) = 1 := by rw [if_neg hp]
      have h2 : ((p != -1) = true) := by simpa using hp
      simp only [List.map_cons, List.zipWith_cons_cons, List.foldl_cons, List.filter_cons,
        h1, h2, if_true, map_one_mul]
      refine ih (vadd acc (embLookup T (max p 0).toNat)) ?_
        (fun q hq => hidx q (List.mem_cons_of_mem _ hq))
      simp only [vadd, List.length_zipWith]
      omega

/-- C4.  In `EntityEmbeddings.forward`, the division guard
`valid-count + 1e-12` is strictly positive; the position contribution is
the sum of the valid slots' embeddings divided by `(k + 1e-12)` where `k`
is the number of valid slots; and for an entity all of whose slots are the
sentinel `-1` the contribution is exactly the zero vector. -/
theorem c4_entity_position_average (T : Mat) (H : ℕ) (slots : List ℤ)
    (hT : ∀ r ∈ T, r.length = H)
    (hidx : ∀ p ∈ slots, (max p 0).toNat < T.length) :
    (0 : ℚ) < (slots.map (fun p => if p = -1 then (0 : ℚ) else 1)).sum + 1e-12 ∧
    positionEmbAverage T H slots =
      (vsum H ((slots.filter (fun p => p != -1)).map
        (fun p => embLookup T (max p 0).toNat))).map
        (fun a => a / ((slots.countP (fun p => p != -1) : ℚ) + 1e-12)) ∧
    ((∀ p ∈ slots, p = -1) → positionEmbAverage T H slots = zeros H) := by
  have hpos : (0 : ℚ) < (slots.map (fun p => if p = -1 then (0 : ℚ) else 1)).sum + 1e-12 := by
    have h0 : (0 : ℚ) ≤ (slots.map (fun p => if p = -1 then (0 : ℚ) else 1)).sum := by
      apply List.sum_nonneg
      intro x hx
      obtain ⟨p, hp, rfl⟩ := List.mem_map.mp hx
      split <;> norm_num
    nlinarith
  have hmain : positionEmbAverage T H slots =
      (vsum H ((slots.filter (fun p => p != -1)).map
        (fun p => embLookup T (max p 0).toNat))).map
        (fun a => a / ((slots.countP (fun p => p != -1) : ℚ) + 1e-12)) := by
    simp only [positionEmbAverage, vsum, mask_sum_eq_countP]
    rw [foldl_vadd_masked T H hT slots (zeros H) (by simp [zeros]) hidx]
  refine ⟨hpos, hmain, ?_⟩
  intro hall
  have hfil : slots.filter (fun p => p != -1) = [] := by
    rw [List.filter_eq_nil_iff]
    intro p hp
    simp [hall p hp]
  rw [hmain, hfil]
  simp [vsum, zeros, List.map_replicate]

/-- Closed witness for C4: an all-sentinel entity gets an exactly-zero
position contribution; a two-valid-slot entity gets the slot sum divided by
`2 + 1e-12`. -/
theorem c4_entity_position_average_witness :
    positionEmbAverage [[1, 2], [3, 4]] 2 [-1, -1] = zeros 2 ∧
    positionEmbAverage [[1, 2], [3, 4]] 2 [0, 1, -1] =
      (vsum 2 (([0, 1, -1].filter (fun p => p != (-1 : ℤ))).map
        (fun p => embLookup [[1, 2], [3, 4]] (max p 0).toNat))).map
        (fun a => a / ((([0, 1, -1].countP (fun p => p != (-1 : ℤ)) : ℕ) : ℚ) + 1e-12)) := by
  have hT : ∀ r ∈ ([[1, 2], [3, 4]] : Mat), r.length = 2 := by
    rintro r hr
    simp only [List.mem_cons, List.not_mem_nil, or_false] at hr
    rcases hr with rfl | rfl <;> rfl
  have h1 := c4_entity_position_average [[1, 2], [3, 4]] 2 [-1, -1] hT (by decide)
  have h2 := c4_entity_position_average [[1, 2], [3, 4]] 2 [0, 1, -1] hT (by decide)
  exact ⟨h1.2.2 (by decide), h2.2.1⟩

theorem chunkRows_nil (H : ℕ) : chunkRows H [] = [] := by
  rw [chunkRows]
  simp

theorem chunkRows_append (H : ℕ) (v rest : List ℚ) (hv : v.length = H) (hH : 0 < H) :
    chunkRows H (v ++ rest) = v :: chunkRows H rest := by
  have hne : v ≠ [] := by
    intro h
    subst h
    simp at hv
    omega
  rw [chunkRows]
  rw [dif_neg (by
    push_neg
    exact ⟨by omega, by simp [hne]⟩)]
  rw [List.take_left' hv, List.drop_left' hv]

/-- `view(-1, H)` undoes the flattening of a list of `H`-rows. -/
theorem chunkRows_flatten (H : ℕ) (blocks : List Vec)
    (hb : ∀ b ∈ blocks, b.length = H) (hH : 0 < H) :
    chunkRows H blocks.flatten = blocks := by
  induction blocks with
  | nil => simp [chunkRows_nil]
  | cons b t ih =>
    rw [List.flatten_cons, chunkRows_append H b t.flatten (hb b (List.mem_cons_self b t)) hH]
    rw [ih (fun x hx => hb x (List.mem_cons_of_mem b hx))]

/-- One batch row of the masked gather: chunking the row's kept scalars
recovers exactly the kept vectors in order. -/
theorem chunkRows_row (H : ℕ) (hH : 0 < H) (m : Mat) :
    ∀ (ls : List ℤ) (rest : List ℚ), (∀ v ∈ m, v.length = H) →
    chunkRows H ((((List.zip m ls).map (fun p => if p.2 = -1 then [] else p.1)).flatten) ++ rest) =
      ((List.zip m ls).filter (fun p => p.2 != -1)).map Prod.fst ++ chunkRows H rest := by
  induction m with
  | nil => intro ls rest _; simp
  | cons v m ih =>
    intro ls rest hv
    cases ls with
    | nil => simp
    | cons l t =>
      by_cases hl : l = -1
      · subst hl
        simp only [List.zip_cons_cons, List.map_cons, List.flatten_cons, List.filter_cons,
          if_pos rfl, show ((-1 : ℤ) != -1) = false from rfl, Bool.false_eq_true, if_false,
          List.nil_append]
        exact ih t rest (fun x hx => hv x (List.mem_cons_of_mem v hx))
      · have h2 : ((l != -1) = true) := by simpa using hl
        simp only [List.zip_cons_cons, List.map_cons, List.flatten_cons, List.filter_cons,
          if_neg hl, h2, if_true, List.append_assoc]
        rw [chunkRows_append H v _ (hv v (List.mem_cons_self v m)) hH]
        simp only [List.map_cons, List.cons_append]
        congr 1
        exact ih t rest (fun x hx => hv x (List.mem_cons_of_mem v hx))

theorem maskedSelectView_eq_selected (H : ℕ) (out : List Mat) (labels : List (List ℤ))
    (hH : 0 < H) (hv : ∀ m ∈ out, ∀ v ∈ m, v.length = H) :
    maskedSelectView H out labels = (selectedPairs out labels).map Prod.fst := by
  induction out generalizing labels with
  | nil => simp [maskedSelectView, maskedFlatten, selectedPairs, chunkRows_nil]
  | cons m t ih =>
    cases labels with
    | nil => simp [maskedSelectView, maskedFlatten, selectedPairs, chunkRows_nil]
    | cons ls lt =>
      have hm : ∀ v ∈ m, v.length = H := hv m (List.mem_cons_self m t)
      have ht : ∀ m2 ∈ t, ∀ v ∈ m2, v.length = H :=
        fun m2 hm2 => hv m2 (List.mem_cons_of_mem m hm2)
      simp only [maskedSelectView, maskedFlatten, selectedPairs, List.zip_cons_cons,
        List.map_cons, List.flatten_cons, List.map_append]
      rw [chunkRows_row H hH m ls _ hm]
      have := ih lt ht
      simp only [maskedSelectView, maskedFlatten, selectedPairs] at this
      rw [this]

theorem row_labels_eq_selected (m : Mat) (ls : List ℤ) (h : m.length = ls.length) :
    ls.filter (fun z => z != -1) =
      ((List.zip m ls).filter (fun p => p.2 != -1)).map Prod.snd := by
  induction m generalizing ls with
  | nil =>
    cases ls with
    | nil => rfl
    | cons l t => simp at h
  | cons v m ih =>
    cases ls with
    | nil => simp at h
    | cons l t =>
      simp only [List.zip_cons_cons, List.filter_cons]
      by_cases hl : (l != -1) = true
      · simp only [hl, if_true, List.map_cons]
        congr 1
        exact ih t (by simpa using h)
      · simp only [hl, Bool.false_eq_true, if_false]
        · exact ih t (by simpa using h)

theorem maskedSelectLabels_eq_selected (out : List Mat) (labels : List (List ℤ))
    (hl : List.Forall₂ (fun (m : Mat) (ls : List ℤ) => m.length = ls.length) out labels) :
    maskedSelectLabels labels = (selectedPairs out labels).map Prod.snd := by
  induction hl with
  | nil => rfl
  | cons hrow htail ih =>
    simp only [maskedSelectLabels, selectedPairs, List.map_cons, List.flatten_cons,
      List.zip_cons_cons, List.map_append] at *
    rw [row_labels_eq_selected _ _ hrow, ih]

/-- C10.  The masked hidden-state gather and the masked label gather select
by the same boolean mask in the same row-major order: both are projections
of one list of (vector, label) pairs, so the `i`-th score row is scored
against the label of the same masked position; the number of gathered
vectors, of gathered labels, of score rows, and the reported total all
equal the number of non-sentinel label entries.  The same functions
implement both the masked-entity and the masked-word branch. -/
theorem c10_masked_gather_alignment (H : ℕ) (out : List Mat) (labels : List (List ℤ))
    (hH : 0 < H) (hv : ∀ m ∈ out, ∀ v ∈ m, v.length = H)
    (hl : List.Forall₂ (fun (m : Mat) (ls : List ℤ) => m.length = ls.length) out labels) :
    maskedSelectView H out labels = (selectedPairs out labels).map Prod.fst ∧
    maskedSelectLabels labels = (selectedPairs out labels).map Prod.snd ∧
    (maskedSelectView H out labels).length = (maskedSelectLabels labels).length ∧
    (maskedSelectLabels labels).length =
      (labels.map (fun ls => ls.countP (fun z => z != -1))).sum ∧
    (∀ (B : Backend) (head : EntityPredictionHead),
      ((maskedSelectView H out labels).map (head.forward B)).length =
        (maskedSelectLabels labels).length) ∧
    (maskedSelectLabels labels).countP (fun z => z != -1) =
      (labels.map (fun ls => ls.countP (fun z => z != -1))).sum ∧
    (∀ (i : ℕ) (vec : Vec) (lab : ℤ), (maskedSelectView H out labels)[i]? = some vec →
      (maskedSelectLabels labels)[i]? = some lab →
      (selectedPairs out labels)[i]? = some (vec, lab)) ∧
    (∀ (B : Backend) (M : LukePretrainingModel) (batch : List ExampleInput),
      (M.forward B batch (some labels) none none).maskedEntityTotal =
        some ((maskedSelectLabels labels).countP (fun z => z != -1)) ∧
      (M.forward B batch none (some labels) none).maskedLmTotal =
        some ((maskedSelectLabels labels).countP (fun z => z != -1))) := by
  have h1 := maskedSelectView_eq_selected H out labels hH hv
  have h2 := maskedSelectLabels_eq_selected out labels hl
  have hlen : (maskedSelectLabels labels).length =
      (labels.map (fun ls => ls.countP (fun z => z != -1))).sum := by
    simp [maskedSelectLabels, List.length_flatten, List.countP_eq_length_filter,
      Function.comp_def]
  have hcount : (maskedSelectLabels labels).countP (fun z => z != -1) =
      (maskedSelectLabels labels).length := by
    have hff : ∀ ls : List ℤ,
        List.filter (fun z => z != -1) (List.filter (fun z => z != -1) ls) =
          List.filter (fun z => z != -1) ls := by
      intro ls
      simp [List.filter_filter]
    simp only [maskedSelectLabels, List.countP_eq_length_filter, List.filter_flatten,
      List.map_map, Function.comp_def, hff]
  refine ⟨h1, h2, ?_, hlen, ?_, ?_, ?_, fun B M batch => ⟨rfl, rfl⟩⟩
  · rw [h1, h2]
    simp
  · intro B head
    rw [h1, h2]
    simp
  · rw [hcount, hlen]
  · intro i vec lab hvec hlab
    rw [h1, List.getElem?_map] at hvec
    rw [h2, List.getElem?_map] at hlab
    cases hq : (selectedPairs out labels)[i]? with
    | none => rw [hq] at hvec; exact Option.noConfusion hvec
    | some q =>
      rw [hq] at hvec hlab
      simp only [Option.map_some'] at hvec hlab
      have e1 : q.1 = vec := Option.some_injective _ hvec
      have e2 : q.2 = lab := Option.some_injective _ hlab
      rw [← e1, ← e2]

/-- Closed witness for C10 at a concrete two-example batch. -/
theorem c10_masked_gather_alignment_witness :
    maskedSelectView 2 [[[1, 2], [3, 4]], [[5, 6]]] [[7, -1], [-1]] =
      (selectedPairs [[[1, 2], [3, 4]], [[5, 6]]] [[7, -1], [-1]]).map Prod.fst ∧
    maskedSelectLabels [[7, -1], [-1]] =
      (selectedPairs [[[1, 2], [3, 4]], [[5, 6]]] [[7, -1], [-1]]).map Prod.snd := by
  have h := c10_masked_gather_alignment 2 [[[1, 2], [3, 4]], [[5, 6]]] [[7, -1], [-1]]
    (by omega)
    (by
      intro m hm v hvv
      simp only [List.mem_cons, List.not_mem_nil, or_false] at hm
      rcases hm with rfl | rfl <;>
        simp only [List.mem_cons, List.not_mem_nil, or_false] at hvv <;>
        rcases hvv with rfl | rfl <;> rfl)
    (List.Forall₂.cons rfl (List.Forall₂.cons rfl List.Forall₂.nil))
  exact ⟨h.1, h.2.1⟩

theorem length_zipWith3 {α β γ δ : Type} (f : α → β → γ → δ)
    (as : List α) (bs : List β) (cs : List γ) :
    (List.zipWith3 f as bs cs).length = min as.length (min bs.length cs.length) := by
  induction as generalizing bs cs with
  | nil => simp [List.zipWith3]
  | cons a t ih =>
    cases bs with
    | nil => simp [List.zipWith3]
    | cons b u =>
      cases cs with
      | nil => simp [List.zipWith3]
      | cons c w =>
        simp only [List.zipWith3, List.length_cons, ih]
        omega

theorem WordEmbeddings.forward_length (B : Backend) (we : WordEmbeddings)
    (ids seg : List ℕ) :
    (we.forward B ids seg).length = min ids.length (min ids.length seg.length) := by
  simp [WordEmbeddings.forward, length_zipWith3]

/-- One encoder layer preserves both streams' sequence lengths. -/
theorem Layer.forward_lengths (B : Backend) (l : Layer) (w e : Mat) (mask : Vec) :
    (l.forward B w e mask).1.length = w.length ∧
    (l.forward B w e mask).2.length = e.length := by
  constructor <;>
    simp [Layer.forward, Attention.forward, SelfOutput.forward, Output.forward,
      Intermediate.forward, SelfAttention.forward, SelfAttention.joint_length,
      List.length_zipWith]

theorem runLayers_lengths (B : Backend) (mask : Vec) (ls : List Layer) (p : Mat × Mat) :
    (runLayers B mask ls p).1.length = p.1.length ∧
    (runLayers B mask ls p).2.length = p.2.length := by
  induction ls generalizing p with
  | nil => exact ⟨rfl, rfl⟩
  | cons l t ih =>
    simp only [runLayers, List.foldl_cons]
    have h := Layer.forward_lengths B l p.1 p.2 mask
    have h2 := ih (l.forward B p.1 p.2 mask)
    simp only [runLayers] at h2
    exact ⟨by rw [h2.1, h.1], by rw [h2.2, h.2]⟩

/-- C6.  The base forward may be invoked with only word-stream arguments
and an all-absent entity stream (spec-modelled, see
`lukeModelForwardWordsOnly`): the invocation succeeds, returning one
(word, entity) pair whose word stream has one position per word id, the
first word position's representation is extractable (the sequence is
nonempty), and the pooled output is computed from that word stream. -/
theorem c6_entity_free_invocation (B : Backend) (M : LukeModel)
    (ids seg : List ℕ) (m : Vec)
    (hseg : seg.length = ids.length) (hne : ids ≠ []) :
    (lukeModelForwardWordsOnly B M ids seg m).1.length = 1 ∧
    ((lukeModelForwardWordsOnly B M ids seg m).1.getLastD ([], [])).1.length = ids.length ∧
    ((lukeModelForwardWordsOnly B M ids seg m).1.getLastD ([], [])).1 ≠ [] ∧
    LukeSentenceEmbedding.forward B M ids seg m =
      (((lukeModelForwardWordsOnly B M ids seg m).1.getLastD ([], [])).1).getD 0 [] ∧
    (lukeModelForwardWordsOnly B M ids seg m).2 =
      M.pooler.forward B (((lukeModelForwardWordsOnly B M ids seg m).1.getLastD ([], [])).1) := by
  have hword : ((lukeModelForwardWordsOnly B M ids seg m).1.getLastD ([], [])).1.length =
      ids.length := by
    simp only [lukeModelForwardWordsOnly, LukeModel.forward, Encoder.forward,
      Bool.false_eq_true, if_false, List.getLastD_cons, List.getLastD_nil]
    rw [(runLayers_lengths B _ M.encoder.layer _).1]
    rw [WordEmbeddings.forward_length]
    omega
  refine ⟨rfl, hword, ?_, rfl, rfl⟩
  intro hnil
  rw [hnil] at hword
  exact hne (List.eq_nil_of_length_eq_zero hword.symm)

/-- Closed witness for C6 at a concrete one-token input. -/
theorem c6_entity_free_invocation_witness :
    (lukeModelForwardWordsOnly constBackend tinyLukeModel [0] [0] [1]).1.length = 1 ∧
    ((lukeModelForwardWordsOnly constBackend tinyLukeModel [0] [0] [1]).1.getLastD
      ([], [])).1 ≠ [] := by
  have h := c6_entity_free_invocation constBackend tinyLukeModel [0] [0] [1] rfl
    (by simp)
  exact ⟨h.1, h.2.2.1⟩

theorem sum_shift_div (x : List ℚ) (u d : ℚ) :
    (x.map (fun a => (a - u) / d)).sum = (x.sum - x.length * u) / d := by
  induction x with
  | nil => simp
  | cons a t ih =>
    simp only [List.map_cons, List.sum_cons, ih, List.length_cons]
    push_cast
    ring

theorem sum_sq_shift_div (x : List ℚ) (u d : ℚ) :
    (x.map (fun a => ((a - u) / d) ^ 2)).sum = (x.map (fun a => (a - u) ^ 2)).sum / d ^ 2 := by
  induction x with
  | nil => simp
  | cons a t ih =>
    rw [List.map_cons, List.sum_cons, List.map_cons, List.sum_cons, ih, div_pow]
    ring

theorem listVariance_nonneg (l : List ℚ) : 0 ≤ listVariance l := by
  unfold listVariance listMean
  apply div_nonneg
  · apply List.sum_nonneg
    intro x hx
    obtain ⟨a, _, rfl⟩ := List.mem_map.mp hx
    positivity
  · positivity

theorem listMean_def (l : List ℚ) : listMean l = l.sum / l.length := rfl

theorem listVariance_def (l : List ℚ) :
    listVariance l = listMean (l.map (fun a => (a - listMean l) ^ 2)) := rfl

/-- The two local bindings of `LayerNorm.forward` lines 51-52 are the mean
and the biased variance, so the normalized value is as below. -/
theorem LayerNorm.normalize_def (B : Backend) (ln : LayerNorm) (x : Vec) :
    ln.normalize B x =
      x.map (fun a => (a - listMean x) /
        B.sqrt (listVariance x + ln.varianceEpsilon)) := rfl

/-- The pre-affine normalized value has mean exactly zero. -/
theorem listMean_normalize (B : Backend) (ln : LayerNorm) (x : Vec) :
    listMean (ln.normalize B x) = 0 := by
  rcases eq_or_ne x ([] : Vec) with rfl | hx
  · simp [LayerNorm.normalize, listMean]
  · have hlen : x.length ≠ 0 := fun h0 => hx (List.eq_nil_of_length_eq_zero h0)
    have hn : ((x.length : ℚ)) ≠ 0 := Nat.cast_ne_zero.mpr hlen
    unfold LayerNorm.normalize listMean
    rw [List.length_map, sum_shift_div, mul_comm, div_mul_cancel₀ _ hn]
    simp

/-- The pre-affine normalized value's biased variance is `s / (s + ε)` when
the backend square root is exact at `s + ε`. -/
theorem listVariance_normalize (B : Backend) (ln : LayerNorm) (x : Vec)
    (hsq : (B.sqrt (listVariance x + ln.varianceEpsilon)) ^ 2 =
      listVariance x + ln.varianceEpsilon) :
    listVariance (ln.normalize B x) =
      listVariance x / (listVariance x + ln.varianceEpsilon) := by
  have hmean := listMean_normalize B ln x
  rw [listVariance_def, hmean]
  simp only [sub_zero]
  rw [LayerNorm.normalize_def, List.map_map]
  simp only [Function.comp_def]
  rw [listMean_def, List.length_map, sum_sq_shift_div, hsq, div_right_comm]
  congr 1
  rw [listVariance_def, listMean_def, listMean_def, List.length_map]

/-- C7 counterexample: on the all-constant slice `[0, 0]` the pre-affine
normalized value is `[0, 0]`, whose biased variance is `0`, not within the
epsilon tolerance of `1`. -/
theorem c7_layernorm_counterexample :
    ¬ (|listVariance (LayerNorm.normalize sqrtEpsBackend tinyLayerNorm [0, 0]) - 1| ≤
      tinyLayerNorm.varianceEpsilon) := by
  have h0 : LayerNorm.normalize sqrtEpsBackend tinyLayerNorm [0, 0] = [0, 0] := by
    simp [LayerNorm.normalize, listMean]
  rw [h0]
  have h1 : listVariance ([0, 0] : Vec) = 0 := by
    simp [listVariance, listMean]
  rw [h1]
  simp only [tinyLayerNorm]
  norm_num

/-- C7 (amended).  `LayerNorm.forward` preserves the slice length and equals
the learned affine applied to the normalized value; the pre-affine
normalized value has mean exactly 0; assuming the backend square root is
exact at `s + ε` (`s` the input's biased variance), the normalized value's
variance equals `s / (s + ε)` — within `ε` of 1 whenever `s ≥ 1`, with
absolute deviation exactly `ε / (s + ε)` (so an all-constant slice, with
`s = 0`, has variance 0, not ≈ 1). -/
theorem c7_layernorm_amended (B : Backend) (ln : LayerNorm) (x : Vec)
    (hw : ln.weight.length = x.length) (hb : ln.bias.length = x.length)
    (heps : 0 < ln.varianceEpsilon)
    (hsq : (B.sqrt (listVariance x + ln.varianceEpsilon)) ^ 2 =
      listVariance x + ln.varianceEpsilon) :
    (ln.forward B x).length = x.length ∧
    ln.forward B x =
      vadd (List.zipWith (fun w n => w * n) ln.weight (ln.normalize B x)) ln.bias ∧
    listMean (ln.normalize B x) = 0 ∧
    listVariance (ln.normalize B x) =
      listVariance x / (listVariance x + ln.varianceEpsilon) ∧
    |listVariance (ln.normalize B x) - 1| =
      ln.varianceEpsilon / (listVariance x + ln.varianceEpsilon) ∧
    (1 ≤ listVariance x →
      |listVariance (ln.normalize B x) - 1| ≤ ln.varianceEpsilon) := by
  have hs := listVariance_nonneg x
  have hpos : 0 < listVariance x + ln.varianceEpsilon := by linarith
  have hvar := listVariance_normalize B ln x hsq
  have habs : |listVariance (ln.normalize B x) - 1| =
      ln.varianceEpsilon / (listVariance x + ln.varianceEpsilon) := by
    rw [hvar]
    have e1 : listVariance x / (listVariance x + ln.varianceEpsilon) - 1 =
        -(ln.varianceEpsilon / (listVariance x + ln.varianceEpsilon)) := by
      field_simp
    rw [e1, abs_neg, abs_of_nonneg (div_nonneg heps.le hpos.le)]
  refine ⟨?_, rfl, listMean_normalize B ln x, hvar, habs, ?_⟩
  · simp only [LayerNorm.forward, vadd, List.length_zipWith, LayerNorm.normalize,
      List.length_map]
    omega
  · intro hone
    rw [habs, div_le_iff₀ hpos]
    nlinarith

/-- Closed witness for the amended C7 at the one-element slice `[0]`. -/
theorem c7_layernorm_amended_witness :
    listMean (LayerNorm.normalize sqrtEpsBackend oneLayerNorm [0]) = 0 ∧
    listVariance (LayerNorm.normalize sqrtEpsBackend oneLayerNorm [0]) =
      listVariance [0] / (listVariance [0] + oneLayerNorm.varianceEpsilon) := by
  have hvar0 : listVariance ([0] : Vec) = 0 := by
    simp [listVariance, listMean]
  have h := c7_layernorm_amended sqrtEpsBackend oneLayerNorm [0] rfl rfl
    (by simp only [oneLayerNorm]; norm_num)
    (by
      rw [hvar0]
      simp only [oneLayerNorm, sqrtEpsBackend, zero_add]
      norm_num)
  exact ⟨h.2.2.1, h.2.2.2.1⟩

/-- Looking a key up after a key-preserving value map. -/
theorem lookup_map_value (l : List (Key × Mat)) (f : Key → Mat → Mat) (n : Key) :
    (l.map (fun p => (p.1, f p.1 p.2))).lookup n = (l.lookup n).map (f n) := by
  induction l with
  | nil => rfl
  | cons p t ih =>
    cases h : n == p.1 with
    | false => simp [List.lookup, h, ih]
    | true =>
      have hn : n = p.1 := eq_of_beq h
      subst hn
      simp [List.lookup, h]

/-- The value a model parameter holds after `load_bert_weights`: the renamed
checkpoint's tensor when present, its previous (initialized) value when not. -/
theorem loadBertWeights_lookup (params sd : List (Key × Mat)) (n : Key) (v : Mat)
    (h : params.lookup n = some v) :
    (loadBertWeights params sd).1.lookup n =
      some (((renameStateDict sd).lookup n).getD v) := by
  have hm := lookup_map_value params
    (fun k w => (((renameStateDict sd).lookup k).getD w)) n
  simp only [loadBertWeights]
  rw [hm, h]
  rfl

/-- C8.  Checkpoint keys are renamed by `gamma`→`weight`, `beta`→`bias` and
stripping a leading `bert.`; in particular `bert.embeddings.LayerNorm.gamma`
addresses the model parameter `embeddings.LayerNorm.weight`.  A parameter
present in the renamed checkpoint receives the checkpoint tensor; a
parameter absent from it keeps its initialized value; and the unexpected
keys are exactly the renamed checkpoint keys matching no model parameter
(collected, not raised). -/
theorem c8_load_bert_weights_renames :
    renameKey "bert.embeddings.LayerNorm.gamma".toList =
      "embeddings.LayerNorm.weight".toList ∧
    (∀ (params sd : List (Key × Mat)) (n : Key) (v : Mat),
      params.lookup n = some v →
      (loadBertWeights params sd).1.lookup n =
        some (((renameStateDict sd).lookup n).getD v)) ∧
    (∀ (params sd : List (Key × Mat)) (n : Key) (v t : Mat),
      params.lookup n = some v → (renameStateDict sd).lookup n = some t →
      (loadBertWeights params sd).1.lookup n = some t) ∧
    (∀ (params sd : List (Key × Mat)) (n : Key) (v : Mat),
      params.lookup n = some v → (renameStateDict sd).lookup n = none →
      (loadBertWeights params sd).1.lookup n = some v) ∧
    (∀ (params : List (Key × Mat)) (v t : Mat),
      params.lookup "embeddings.LayerNorm.weight".toList = some v →
      (loadBertWeights params
        [("bert.embeddings.LayerNorm.gamma".toList, t)]).1.lookup
          "embeddings.LayerNorm.weight".toList = some t) ∧
    (∀ (params sd : List (Key × Mat)) (k : Key),
      k ∈ (loadBertWeights params sd).2 ↔
        ∃ t, (k, t) ∈ renameStateDict sd ∧ (params.lookup k).isNone) := by
  have h1 : renameKey "bert.embeddings.LayerNorm.gamma".toList =
      "embeddings.LayerNorm.weight".toList := by decide
  refine ⟨h1, loadBertWeights_lookup, ?_, ?_, ?_, ?_⟩
  · intro params sd n v t hp hsd
    rw [loadBertWeights_lookup params sd n v hp, hsd]
    rfl
  · intro params sd n v hp hsd
    rw [loadBertWeights_lookup params sd n v hp, hsd]
    rfl
  · intro params v t hp
    rw [loadBertWeights_lookup params _ _ v hp]
    have hsd : (renameStateDict
        [("bert.embeddings.LayerNorm.gamma".toList, t)]).lookup
          "embeddings.LayerNorm.weight".toList = some t := by
      simp only [renameStateDict, List.map_cons, List.map_nil, h1]
      simp [List.lookup]
    rw [hsd]
    rfl
  · intro params sd k
    simp only [loadBertWeights, List.mem_map, List.mem_filter]
    constructor
    · rintro ⟨q, ⟨hq, hnone⟩, rfl⟩
      exact ⟨q.2, hq, by simpa using hnone⟩
    · rintro ⟨t, ht, hnone⟩
      exact ⟨(k, t), ⟨ht, by simpa using hnone⟩, rfl⟩

/-- Closed witness for C8 at a one-entry checkpoint and model. -/
theorem c8_load_bert_weights_renames_witness :
    (loadBertWeights [("embeddings.LayerNorm.weight".toList, [[0]])]
      [("bert.embeddings.LayerNorm.gamma".toList, [[5]])]).1.lookup
        "embeddings.LayerNorm.weight".toList = some [[5]] ∧
    "bogus".toList ∈ (loadBertWeights [("embeddings.LayerNorm.weight".toList, [[0]])]
      [("bogus".toList, [[7]])]).2 := by
  constructor
  · exact (c8_load_bert_weights_renames.2.2.2.2.1) _ [[0]] [[5]] rfl
  · refine ((c8_load_bert_weights_renames.2.2.2.2.2) _ _ _).mpr ⟨[[7]], ?_, ?_⟩
    · simp [renameStateDict]
      rfl
    · rfl

end Theorems

end Luke
